import Mathlib

/-!
Verification of the qrxr feature-based tracking pipeline.

This file gives a shallow embedding of the tracking core of the repository
(`src/utils/tracker.ts`, `src/utils/frameProcessor.ts`, and the tracking
state machine of the `Camera` component) and proves properties of it.

Modelling conventions:
* JavaScript numbers are modelled as exact rationals (`ℚ`) for all stored
  data (pixel bytes, coordinates, descriptor entries) — every such value the
  program manipulates is a finite IEEE double, hence a rational — and as real
  numbers (`ℝ`) for derived distance/score values, because `Math.sqrt`
  produces irrational reals in the idealized (roundoff-free) semantics.
* The JavaScript `Infinity` sentinel used by the matcher is modelled with
  `WithTop ℝ` (`⊤` plays the role of `Infinity`; note `0.7 * Infinity =
  Infinity` in JS and `(0.7 : WithTop ℝ) * ⊤ = ⊤` here).
* `Math.random`-driven index selection is modelled by an explicitly injected
  oracle `rnd : ℕ → List ℕ` giving, for each RANSAC iteration, the list of
  chosen sample indices; theorems quantify over all oracles.
* JavaScript array indexing `a[i]` is modelled with `List.getD` (in the
  executions reached by the theorems below the indices are in bounds, so the
  default is irrelevant).
* `Array.prototype.sort` with a numeric comparator is modelled by
  `List.insertionSort` of the corresponding (total, transitive) relation;
  both are stable sorts, and on a linear order any two stable sorts agree.
-/

open scoped Classical

set_option linter.unusedVariables false

noncomputable section

/-- A 2-D point (`Point` of `src/types/tracking.ts`): JS float coordinates,
modelled as exact rationals. -/
structure Pt where
  x : ℚ
  y : ℚ
deriving DecidableEq

/-- A feature match (`FeatureMatch` of `src/types/tracking.ts`).
`trainIdx` is an `ℤ` because the scan of `findBestMatchesWithRatioTest`
initializes it with the sentinel `-1`; `distance` is a `WithTop ℝ` because
the scan initializes the running minima with `Infinity`. -/
structure FeatureMatch where
  queryIdx : ℕ
  trainIdx : ℤ
  distance : WithTop ℝ

namespace FrameProcessor

/-- Raw image data (`ImageData`): RGBA bytes in row-major order. -/
structure ImgData where
  width : ℕ
  height : ℕ
  data : List ℕ

/-- `data[i]` access (out-of-range reads do not occur in the guarded
executions analysed below). -/
def dataAt (img : ImgData) (i : ℕ) : ℚ :=
  (img.data.getD i 0 : ℚ)

/-- JavaScript `Math.round`: round half towards `+∞`, which is exactly
Mathlib's `round` (`round x = ⌊x + 1/2⌋`). -/
def jsRound (q : ℚ) : ℤ :=
  round q

/-- The sampling offsets of `computeDescriptor` (`frameProcessor.ts` lines
256-257): `for (let dy = -halfPatch; dy < halfPatch; dy += 4)` with
`patchSize = 16`, i.e. `-8, -4, 0, 4`. -/
def sampleOffsets : List ℤ :=
  [-8, -4, 0, 4]

/-- One grid sample of `computeDescriptor` (`frameProcessor.ts` lines
258-273): round the sample coordinates, push `0` for out-of-bounds samples,
otherwise the luma intensity `(0.299 R + 0.587 G + 0.114 B) / 255`. -/
def sampleAt (img : ImgData) (p : Pt) (dy dx : ℤ) : ℚ :=
  let x := jsRound (p.x + dx)
  let y := jsRound (p.y + dy)
  if x < 0 ∨ (img.width : ℤ) ≤ x ∨ y < 0 ∨ (img.height : ℤ) ≤ y then 0
  else
    let idx := ((y * img.width + x).toNat) * 4
    (299 / 1000 * dataAt img idx
      + 587 / 1000 * dataAt img (idx + 1)
      + 114 / 1000 * dataAt img (idx + 2)) / 255

/-- The raw (pre-normalization) sample vector of `computeDescriptor`:
a 16×16 patch sampled at stride 4. -/
def rawSamples (img : ImgData) (p : Pt) : List ℚ :=
  sampleOffsets.flatMap fun dy => sampleOffsets.map fun dx => sampleAt img p dy dx

/-- `computeDescriptor` (`frameProcessor.ts` lines 249-283): sample the
patch, then mean-center (subtract the mean of the vector itself). -/
def computeDescriptor (img : ImgData) (p : Pt) : List ℚ :=
  let descriptor := rawSamples img p
  let mean := descriptor.sum / (descriptor.length : ℚ)
  descriptor.map fun v => v - mean

/-- A detected corner candidate (`CornerPoint` of `frameProcessor.ts`):
integer pixel coordinates plus the corner response. -/
structure CornerPoint where
  x : ℤ
  y : ℤ
  response : ℝ

/-- The grayscale buffer of `detectFeatures` (`frameProcessor.ts` lines
141-152), accessed at a flat index: `gray[i] = Math.round(0.299 R + 0.587 G
+ 0.114 B)` of pixel `i`. -/
def grayAt (img : ImgData) (i : ℤ) : ℚ :=
  let j := i.toNat
  ((round (299 / 1000 * dataAt img (j * 4) + 587 / 1000 * dataAt img (j * 4 + 1)
      + 114 / 1000 * dataAt img (j * 4 + 2)) : ℤ) : ℚ)

/-- The 3×3 gradient window offsets `(wy, wx)`, in source iteration order
(`for (let wy = -1; wy <= 1; wy++) for (let wx = -1; wx <= 1; wx++)`). -/
def window3 : List (ℤ × ℤ) :=
  [(-1, -1), (-1, 0), (-1, 1), (0, -1), (0, 0), (0, 1), (1, -1), (1, 0), (1, 1)]

/-- The inverse-distance-weighted 3×3 gradient accumulation used both
inline in `detectFeatures` (lines 166-178) and in `getCornerScore` (lines
231-247) — the two loops are textually identical. -/
def gradAt (img : ImgData) (x y : ℤ) : ℚ × ℚ :=
  window3.foldl
    (fun g pr =>
      let wy := pr.1
      let wx := pr.2
      let v := grayAt img ((y + wy) * (img.width : ℤ) + (x + wx))
      let wt : ℚ := 1 / ((|wx| : ℤ) + (|wy| : ℤ) + 1 : ℤ)
      (g.1 + (if wx < 0 then -(v * wt) else if 0 < wx then v * wt else 0),
       g.2 + (if wy < 0 then -(v * wt) else if 0 < wy then v * wt else 0)))
    (0, 0)

/-- `getCornerScore` (`frameProcessor.ts` lines 231-247): gradient
magnitude `Math.sqrt(gradX² + gradY²)`. -/
def getCornerScore (img : ImgData) (x y : ℤ) : ℝ :=
  Real.sqrt ((((gradAt img x y).1 * (gradAt img x y).1
    + (gradAt img x y).2 * (gradAt img x y).2 : ℚ)) : ℝ)

/-- The integer range `[a, b)` of a JS `for (let i = a; i < b; i++)` loop. -/
def intRange (a b : ℤ) : List ℤ :=
  (List.range (b - a).toNat).map fun k => a + (k : ℤ)

/-- The 8 non-maximum-suppression neighbour offsets `(ny, nx)`, in source
iteration order (lines 186-201, skipping `(0, 0)`). -/
def window8 : List (ℤ × ℤ) :=
  [(-1, -1), (-1, 0), (-1, 1), (0, -1), (0, 1), (1, -1), (1, 0), (1, 1)]

/-- The non-maximum-suppression test of `detectFeatures` (lines 184-202): a
candidate survives iff no 8-neighbour lying inside the cell bounds has a
strictly higher corner score. -/
def isLocalMax (img : ImgData) (startX endX startY endY x y : ℤ) (score : ℝ) : Prop :=
  ∀ pr ∈ window8,
    (startX ≤ x + pr.2 ∧ x + pr.2 < endX ∧ startY ≤ y + pr.1 ∧ y + pr.1 < endY) →
      ¬ score < getCornerScore img (x + pr.2) (y + pr.1)

/-- The per-cell corner detection of `detectFeatures` (lines 155-209):
scan the cell interior (border margin `gridSize`), keep pixels whose score
exceeds the sensitivity threshold and survive non-maximum suppression. -/
def cellCandidates (img : ImgData) (detailed : Bool) (cellX cellY : ℕ) :
    List CornerPoint :=
  let threshold : ℝ := if detailed then 3 else 10
  let gridSize : ℤ := if detailed then 3 else 6
  let cellWidth : ℤ := ((img.width / 10 : ℕ) : ℤ)
  let cellHeight : ℤ := ((img.height / 10 : ℕ) : ℤ)
  let startX : ℤ := (cellX : ℤ) * cellWidth
  let startY : ℤ := (cellY : ℤ) * cellHeight
  let endX : ℤ := min (startX + cellWidth) ((img.width : ℤ) - gridSize)
  let endY : ℤ := min (startY + cellHeight) ((img.height : ℤ) - gridSize)
  (intRange (startY + gridSize) (endY - gridSize)).flatMap fun y =>
    (intRange (startX + gridSize) (endX - gridSize)).filterMap fun x =>
      let score := getCornerScore img x y
      if threshold < score ∧ isLocalMax img startX endX startY endY x y score
      then some ⟨x, y, score⟩ else none

/-- Ordering of the per-cell sort `(a, b) => scoreB - scoreA` (lines
212-216): descending by recomputed corner score. -/
def cellRank (img : ImgData) (a b : CornerPoint) : Prop :=
  getCornerScore img b.x b.y ≤ getCornerScore img a.x a.y

/-- Ordering of the final sort `(a, b) => b.response - a.response` (line
224): descending by response. -/
def respRank (a b : CornerPoint) : Prop :=
  b.response ≤ a.response

/-- `detectFeatures` (`frameProcessor.ts` lines 127-229): per-cell corner
detection on a 10×10 cell grid, per-cell score sort capped at
`max (maxPoints / 100) 20` points, then a global response sort truncated to
`maxPoints`, returning bare points. -/
def detectFeatures (img : ImgData) (detailed : Bool) (maxPoints : ℕ) : List Pt :=
  let pointsPerCell := maxPoints / 100
  let allPoints := (List.range 10).flatMap fun cellY =>
    (List.range 10).flatMap fun cellX =>
      ((cellCandidates img detailed cellX cellY).insertionSort (cellRank img)).take
        (max pointsPerCell 20)
  ((allPoints.insertionSort respRank).take maxPoints).map fun c => ⟨(c.x : ℚ), (c.y : ℚ)⟩

end FrameProcessor

namespace Camera

/-- `FRAME_BUFFER_SIZE` (`Camera`, tracking.ts concatenation line 40). -/
def frameBufferSize : ℕ := 10

/-- `MIN_FRAMES_BEFORE_CHANGE` (line 42). -/
def minFramesBeforeChange : ℕ := 5

/-- `START_TRACKING_THRESHOLD` (line 45). -/
def startTrackingThreshold : ℤ := 40

/-- `STOP_TRACKING_THRESHOLD` (line 46). -/
def stopTrackingThreshold : ℤ := 20

/-- Mutable per-session tracking state of the `Camera` component:
`isTracking`, `lastFramesRef` (most recent last) and `frameCountRef`. -/
structure CamState where
  isTracking : Bool
  lastFrames : List ℕ
  frameCount : ℕ
deriving DecidableEq

/-- Push the new per-frame match count and drop the oldest entry when the
buffer exceeds `FRAME_BUFFER_SIZE` (lines 84-87: `push` then `shift`). -/
def pushFrame (buf : List ℕ) (c : ℕ) : List ℕ :=
  let b := buf ++ [c]
  if frameBufferSize < b.length then b.tail else b

/-- `averageMatches` (lines 90-92): `Math.round` of the mean of the buffer. -/
def averageMatches (buf : List ℕ) : ℤ :=
  round ((buf.sum : ℚ) / (buf.length : ℚ))

/-- One step of the tracking decision of `Camera.processFrame`
(lines 83-111), for a frame that produced `c` matches: update the buffer,
increment the frame counter, compute `shouldBeTracking` with the
side-appropriate threshold, and change state (resetting the counter) only
when the decision differs and at least `MIN_FRAMES_BEFORE_CHANGE` frames
were counted. -/
def processFrame (s : CamState) (c : ℕ) : CamState :=
  let buf := pushFrame s.lastFrames c
  let avg := averageMatches buf
  let fc := s.frameCount + 1
  let should : Bool := if s.isTracking
    then stopTrackingThreshold ≤ avg
    else startTrackingThreshold ≤ avg
  if should ≠ s.isTracking ∧ minFramesBeforeChange ≤ fc
  then ⟨should, buf, 0⟩
  else ⟨s.isTracking, buf, fc⟩

end Camera

namespace ImageTracker

/-- `computeDistance` (`tracker.ts` lines 450-461): L2 distance of two
descriptors over their common length (`zip` truncates to the minimum
length, like the `Math.min(desc1.length, desc2.length)` loop bound). -/
def computeDistance (d1 d2 : List ℚ) : ℝ :=
  Real.sqrt ((((d1.zip d2).map fun p => (p.1 - p.2) * (p.1 - p.2)).sum : ℚ) : ℝ)

/-- `getDistance` (`tracker.ts` lines 471-475): Euclidean point distance. -/
def getDistance (p1 p2 : Pt) : ℝ :=
  Real.sqrt (((p1.x - p2.x) * (p1.x - p2.x) + (p1.y - p2.y) * (p1.y - p2.y) : ℚ))

/-- `framePoints[i]` / `targetPoints[i]` access. -/
def ptAt (l : List Pt) (i : ℕ) : Pt :=
  l.getD i ⟨0, 0⟩

/-- `targetPoints[m.trainIdx]` access (the matcher only ever emits
nonnegative `trainIdx`, see `scanDescriptors`). -/
def ptAtZ (l : List Pt) (i : ℤ) : Pt :=
  l.getD i.toNat ⟨0, 0⟩

/-- Running state of the best/second-best scan of
`findBestMatchesWithRatioTest` (`tracker.ts` lines 272-275): `bestDist` and
`secondBestDist` start at `Infinity` (`⊤`), `bestIdx` starts at `-1`. -/
structure ScanState where
  bestDist : WithTop ℝ
  secondBest : WithTop ℝ
  bestIdx : ℤ

/-- The inner loop of `findBestMatchesWithRatioTest` (`tracker.ts` lines
277-288): scan the reference descriptors, tracking the minimum distance,
the second-minimum distance, and the index of the (first) minimizer;
`i` is the index of the head of the remaining list `tds`. -/
def scanDescriptors (fd : List ℚ) : List (List ℚ) → ℕ → ScanState → ScanState
  | [], _, st => st
  | td :: tds, i, st =>
    let d : ℝ := computeDistance fd td
    scanDescriptors fd tds (i + 1)
      (if (d : WithTop ℝ) < st.bestDist then ⟨(d : ℝ), st.bestDist, (i : ℤ)⟩
       else if (d : WithTop ℝ) < st.secondBest then ⟨st.bestDist, (d : ℝ), st.bestIdx⟩
       else st)

/-- The per-query-descriptor body of `findBestMatchesWithRatioTest`
(`tracker.ts` lines 269-298): run the scan from `(Infinity, Infinity, -1)`
and emit a match exactly when Lowe's ratio test
`bestDist < ratioThreshold * secondBestDist` passes. -/
def ratioCandidate (tds : List (List ℚ)) (ratioThreshold : ℝ) (q : ℕ) (fd : List ℚ) :
    Option FeatureMatch :=
  let st := scanDescriptors fd tds 0 ⟨⊤, ⊤, -1⟩
  if st.bestDist < (ratioThreshold : WithTop ℝ) * st.secondBest
  then some ⟨q, st.bestIdx, st.bestDist⟩
  else none

/-- The accepted-match accumulation loop of `findBestMatchesWithRatioTest`
(`tracker.ts` line 269: `for (let queryIdx = 0; ...)`); `q` is the index of
the head of the remaining list of frame descriptors. -/
def candidateList (tds : List (List ℚ)) (ratioThreshold : ℝ) :
    List (List ℚ) → ℕ → List FeatureMatch
  | [], _ => []
  | fd :: fds, q =>
    match ratioCandidate tds ratioThreshold q fd with
    | some m => m :: candidateList tds ratioThreshold fds (q + 1)
    | none => candidateList tds ratioThreshold fds (q + 1)

/-- Ordering used by `matches.sort((a, b) => a.distance - b.distance)`. -/
def matchLe (a b : FeatureMatch) : Prop :=
  a.distance ≤ b.distance

instance : IsTotal FeatureMatch matchLe :=
  ⟨fun a b => le_total a.distance b.distance⟩

instance : IsTrans FeatureMatch matchLe :=
  ⟨fun _ _ _ h h' => le_trans h h'⟩

/-- `findBestMatchesWithRatioTest` (`tracker.ts` lines 266-304): collect the
ratio-test survivors, sort them by ascending distance, and return the top
100. -/
def findBestMatchesWithRatioTest (tds fds : List (List ℚ)) (ratioThreshold : ℝ) :
    List FeatureMatch :=
  ((candidateList tds ratioThreshold fds 0).insertionSort matchLe).take 100

/-- The `i < j` double loop over a list (`tracker.ts` lines 338-348 and the
fingerprint loops): all ordered pairs, in source iteration order. -/
def listPairs {α : Type} : List α → List (α × α)
  | [] => []
  | a :: rest => (rest.map fun b => (a, b)) ++ listPairs rest

/-- Frame-side distance of one sample pair (`tracker.ts` lines 340-342). -/
def framePairDist (fps : List Pt) (pr : FeatureMatch × FeatureMatch) : ℝ :=
  getDistance (ptAt fps pr.1.queryIdx) (ptAt fps pr.2.queryIdx)

/-- Target-side distance of one sample pair (`tracker.ts` lines 344-346). -/
def targetPairDist (tps : List Pt) (pr : FeatureMatch × FeatureMatch) : ℝ :=
  getDistance (ptAtZ tps pr.1.trainIdx) (ptAtZ tps pr.2.trainIdx)

/-- `sampleFrameDistances` (`tracker.ts` lines 335-348). -/
def sampleFrameDists (samples : List FeatureMatch) (fps : List Pt) : List ℝ :=
  (listPairs samples).map (framePairDist fps)

/-- `sampleTargetDistances` (`tracker.ts` lines 335-348). -/
def sampleTargetDists (samples : List FeatureMatch) (tps : List Pt) : List ℝ :=
  (listPairs samples).map (targetPairDist tps)

/-- The scale-collection loop (`tracker.ts` lines 351-356): walk the two
index-aligned distance lists, keeping `frame/target` only when the target
distance is strictly positive. -/
def scalesList (frameDs targetDs : List ℝ) : List ℝ :=
  (frameDs.zip targetDs).filterMap fun pr =>
    if 0 < pr.2 then some (pr.1 / pr.2) else none

/-- The scale-consistency test of one candidate match against the estimate
(`tracker.ts` line 392): `Math.abs(scale - est) / est > 0.25`. The branch on
`est = 0` spells out the IEEE semantics of the source expression at a zero
estimate: `scale / 0` is `Infinity` for `scale ≠ 0` (deviates) and the
comparison `NaN > 0.25` is false for `scale = 0` (does not deviate). -/
def scaleDeviates (est scale : ℝ) : Prop :=
  if est = 0 then scale ≠ 0 else 1 / 4 < |scale - est| / est

/-- The per-candidate inner loop of `checkInliers` (`tracker.ts` lines
370-401): a candidate is consistent iff every sample is skipped (same
query index, or degenerate target distance) or does not deviate in scale. -/
def matchConsistent (est : ℝ) (samples : List FeatureMatch) (fps tps : List Pt)
    (m : FeatureMatch) : Prop :=
  ∀ s ∈ samples, m.queryIdx = s.queryIdx ∨ targetPairDist tps (m, s) = 0 ∨
    ¬ scaleDeviates est (framePairDist fps (m, s) / targetPairDist tps (m, s))

/-- Result record of `checkInliers`. -/
structure CheckResult where
  inliers : List FeatureMatch
  ratio : ℝ

/-- `checkInliers` (`tracker.ts` lines 333-407): compute the pairwise sample
distances, collect scale factors of non-degenerate pairs, return
`{inliers: [], ratio: 0}` when none survive, otherwise estimate the scale
as the middle element of the ascending-sorted scale list and filter all
matches by scale consistency. -/
def checkInliers (samples allMatches : List FeatureMatch) (fps tps : List Pt) :
    CheckResult :=
  let scales := scalesList (sampleFrameDists samples fps) (sampleTargetDists samples tps)
  if scales = [] then ⟨[], 0⟩
  else
    let sorted := scales.insertionSort (· ≤ ·)
    let scaleEstimate := sorted.getD (scales.length / 2) 0
    let inliers := allMatches.filter fun m =>
      decide (matchConsistent scaleEstimate samples fps tps m)
    ⟨inliers, if 0 < allMatches.length then (inliers.length : ℝ) / (allMatches.length : ℝ) else 0⟩

/-- Result record of `verifyGeometry`. -/
structure VerifyResult where
  consistencyRatio : ℝ
  inliers : List FeatureMatch

/-- The 4 samples drawn in RANSAC iteration `i` (`tracker.ts` lines
317-319), with the random index choice supplied by the oracle `rnd`. -/
def iterSamples (matchList : List FeatureMatch) (rnd : ℕ → List ℕ) (i : ℕ) :
    List FeatureMatch :=
  (rnd i).map fun idx => matchList.getD idx ⟨0, 0, 0⟩

/-- `verifyGeometry` (`tracker.ts` lines 306-331): short-circuit below 8
matches, otherwise run `MAX_ITERATIONS = 5` RANSAC iterations and keep the
iteration with the strictly highest ratio. -/
def verifyGeometry (matchList : List FeatureMatch) (fps tps : List Pt)
    (rnd : ℕ → List ℕ) : VerifyResult :=
  if matchList.length < 8 then ⟨0, []⟩
  else
    let best := (List.range 5).foldl
      (fun acc i =>
        let r := checkInliers (iterSamples matchList rnd i) matchList fps tps
        if acc.2 < r.ratio then (r.inliers, r.ratio) else acc)
      ([], 0)
    ⟨best.2, best.1⟩

/-- The tracker fields that determine the value returned by
`matchFeatures`. The image / colour-histogram / fingerprint fields of the
class only feed the `matchQuality` diagnostic and `debugInfo` logging
(`tracker.ts` lines 236-260), not the returned match list, and are omitted. -/
structure TrackerState where
  targetPoints : List Pt
  targetWidth : ℚ
  targetHeight : ℚ
  targetDescriptor : List (List ℚ)

/-- A raw input point `{pt: {x, y}}` of the constructor's `trackingData`. -/
structure RawPoint where
  pt : Pt

/-- A raw input feature `{descriptor}` of the constructor's `trackingData`. -/
structure RawFeature where
  descriptor : List ℚ

/-- The constructor's `trackingData` argument; `points` and `features` are
`Option`s because the constructor guards on their absence. -/
structure TrackingInput where
  points : Option (List RawPoint)
  width : ℚ
  height : ℚ
  features : Option (List RawFeature)

/-- The `features` handling of the constructor (`tracker.ts` lines 43-45):
descriptors are stored only when `features` is present and nonempty. -/
def featureDescriptors (features : Option (List RawFeature)) : List (List ℚ) :=
  match features with
  | some fs => if 0 < fs.length then fs.map RawFeature.descriptor else []
  | none => []

/-- The `ImageTracker` constructor state initialization (`tracker.ts` lines
18-57): with `trackingData` or `trackingData.points` missing, the fields
stay at the empty defaults; otherwise points, dimensions and descriptors
are stored as given (the spatial fingerprint and image loading that follow
only feed diagnostics). -/
def initState (inp : Option TrackingInput) : TrackerState :=
  match inp with
  | none => ⟨[], 0, 0, []⟩
  | some td =>
    match td.points with
    | none => ⟨[], 0, 0, []⟩
    | some pts => ⟨pts.map RawPoint.pt, td.width, td.height, featureDescriptors td.features⟩

/-- Whether the fingerprint grid row assignment of `selectStablePoints`
(`tracker.ts` lines 151-155) faults for a point with `y`-coordinate `y`
when the target height is `h`. The row index is
`Math.min(5, Math.floor(y / cellHeight))` with `cellHeight = h / 6`
(`gridSize = Math.ceil(Math.sqrt(30)) = 6`, lines 143-145), and the
assignment `grid[gridY][gridX] = idx` throws a `TypeError` exactly when
`grid[gridY]` is `undefined`: a negative row, or the IEEE `y / 0` cases at
`h = 0` where `y = 0` gives `NaN` (`Math.min(5, NaN) = NaN`) and `y < 0`
gives `-Infinity`, while `y > 0` gives `+Infinity`, which clamps to row 5.
A bad column index cannot fault: assigning `grid[row][-1]` or
`grid[row][NaN]` on a live row is legal JavaScript. -/
def gridRowInvalid (h y : ℚ) : Bool :=
  if h = 0 then y ≤ 0
  else min 5 ⌊y / (h / 6)⌋ < 0

/-- Construction-error kinds: `emptyImage` is the kind named by the
specification (the code never produces it); `typeError` models the
JavaScript `TypeError` thrown by the spatial-fingerprint grid assignment,
the constructor's only reachable failure. -/
inductive TrackerInitError where
  | emptyImage
  | typeError
deriving DecidableEq

/-- The `ImageTracker` constructor as a fallible operation (`tracker.ts`
lines 18-57): missing `trackingData` or `points` takes the early return
(lines 28-33) with the empty default state; otherwise the supplied fields
are stored unvalidated and `createSpatialFingerprint` runs (line 48).
Its `selectStablePoints` grid — the constructor's only faulting code — is
reached exactly when strictly more than 30 points are present (the guards
at lines 117 and 138 both pass only then), and its point loop throws a
`TypeError` iff some point's grid row index is invalid (line 154,
`gridRowInvalid`). The fingerprint value itself is never read by
`matchFeatures` (diagnostic only) and is not part of the modelled state. -/
def init (inp : Option TrackingInput) : Except TrackerInitError TrackerState :=
  match inp with
  | none => .ok ⟨[], 0, 0, []⟩
  | some td =>
    match td.points with
    | none => .ok ⟨[], 0, 0, []⟩
    | some pts =>
      if 30 < pts.length ∧ (pts.any fun p => gridRowInvalid td.height p.pt.y) = true
      then .error .typeError
      else .ok ⟨pts.map RawPoint.pt, td.width, td.height, featureDescriptors td.features⟩

/-- `matchFeatures` (`tracker.ts` lines 193-264): empty target or missing /
empty descriptor sets yield `[]`; fewer than 8 ratio-test matches yield
`[]`; otherwise the geometric verifier's inliers are returned (the
colour-similarity and match-quality block only affects diagnostics). -/
def matchFeatures (st : TrackerState) (framePoints : List Pt)
    (frameWidth frameHeight : ℚ) (frameDescriptors : Option (List (List ℚ)))
    (rnd : ℕ → List ℕ) : List FeatureMatch :=
  if st.targetPoints = [] then []
  else
    match frameDescriptors with
    | none => []
    | some fds =>
      if 0 < fds.length ∧ 0 < st.targetDescriptor.length then
        let matchList := findBestMatchesWithRatioTest st.targetDescriptor fds (7 / 10)
        if matchList.length < 8 then []
        else (verifyGeometry matchList framePoints st.targetPoints rnd).inliers
      else []

end ImageTracker

section HelperLemmas

/-- Subtracting a constant from every entry subtracts `length • constant`
from the sum. -/
lemma sum_map_sub_const (l : List ℚ) (m : ℚ) :
    (l.map fun v => v - m).sum = l.sum - (l.length : ℚ) * m := by
  induction l with
  | nil => simp
  | cons a t ih =>
    simp only [List.map_cons, List.sum_cons, ih, List.length_cons]
    push_cast
    ring

/-- The raw descriptor sample vector always has exactly 16 entries. -/
lemma rawSamples_length (img : FrameProcessor.ImgData) (p : Pt) :
    (FrameProcessor.rawSamples img p).length = 16 := by
  simp [FrameProcessor.rawSamples, FrameProcessor.sampleOffsets]

end HelperLemmas

/-- C7: the feature detector is deterministic: running `detectFeatures` on
two image buffers with identical dimensions and identical pixel data, with
the same `detailed` flag and `maxPoints` budget, returns identical point
lists — the embedding is a pure function of the pixel input and contains no
randomness source. -/
theorem detectFeatures_deterministic (img1 img2 : FrameProcessor.ImgData)
    (detailed : Bool) (maxPoints : ℕ)
    (hw : img1.width = img2.width) (hh : img1.height = img2.height)
    (hd : img1.data = img2.data) :
    FrameProcessor.detectFeatures img1 detailed maxPoints
      = FrameProcessor.detectFeatures img2 detailed maxPoints := by
  have : img1 = img2 := by
    cases img1
    cases img2
    simp_all
  rw [this]

/-- Witness for C7 at a concrete 1×1 image. -/
theorem detectFeatures_deterministic_witness :
    FrameProcessor.detectFeatures ⟨1, 1, [5, 9, 5, 255]⟩ true 500
      = FrameProcessor.detectFeatures ⟨1, 1, [5, 9, 5, 255]⟩ true 500 :=
  detectFeatures_deterministic ⟨1, 1, [5, 9, 5, 255]⟩ ⟨1, 1, [5, 9, 5, 255]⟩
    true 500 rfl rfl rfl

/-- C8: descriptor totality and shape: for every image and every point,
`computeDescriptor` returns exactly 16 entries (a 16×16 patch sampled at
stride 4), the mean-centered entries sum to 0, and any sample position
falling outside the image bounds contributes a raw sample of 0. -/
theorem computeDescriptor_shape (img : FrameProcessor.ImgData) (p : Pt) :
    (FrameProcessor.computeDescriptor img p).length = 16 ∧
    (FrameProcessor.computeDescriptor img p).sum = 0 ∧
    (∀ dy dx : ℤ,
      (FrameProcessor.jsRound (p.x + dx) < 0 ∨
        (img.width : ℤ) ≤ FrameProcessor.jsRound (p.x + dx) ∨
        FrameProcessor.jsRound (p.y + dy) < 0 ∨
        (img.height : ℤ) ≤ FrameProcessor.jsRound (p.y + dy)) →
      FrameProcessor.sampleAt img p dy dx = 0) := by
  refine ⟨?_, ?_, ?_⟩
  · simp [FrameProcessor.computeDescriptor, rawSamples_length]
  · simp only [FrameProcessor.computeDescriptor]
    rw [sum_map_sub_const, rawSamples_length]
    push_cast
    ring
  · intro dy dx h
    simp only [FrameProcessor.sampleAt]
    rw [if_pos h]

/-- Witness for C8 at a concrete 1×1 image and an out-of-bounds point. -/
theorem computeDescriptor_shape_witness :
    FrameProcessor.sampleAt ⟨1, 1, [7, 7, 7, 255]⟩ ⟨5, 5⟩ 0 0 = 0 :=
  (computeDescriptor_shape ⟨1, 1, [7, 7, 7, 255]⟩ ⟨5, 5⟩).2.2 0 0
    (Or.inr (Or.inl (by norm_num [FrameProcessor.jsRound])))


/-- Either a `processFrame` step leaves `isTracking` unchanged (with the
counter incremented), or it flips `isTracking` and resets the counter, and
then the dwell guard and the side-appropriate threshold condition held. -/
lemma processFrame_cases (s : Camera.CamState) (c : ℕ) :
    Camera.processFrame s c
        = ⟨s.isTracking, Camera.pushFrame s.lastFrames c, s.frameCount + 1⟩ ∨
      (Camera.processFrame s c
          = ⟨!s.isTracking, Camera.pushFrame s.lastFrames c, 0⟩ ∧
        Camera.minFramesBeforeChange ≤ s.frameCount + 1 ∧
        (if s.isTracking
          then Camera.averageMatches (Camera.pushFrame s.lastFrames c)
            < Camera.stopTrackingThreshold
          else Camera.startTrackingThreshold
            ≤ Camera.averageMatches (Camera.pushFrame s.lastFrames c))) := by
  obtain ⟨tr, buf0, fc0⟩ := s
  rcases tr with _ | _
  · simp only [Camera.processFrame, Bool.false_eq_true, if_false, Bool.not_false]
    split_ifs with hcond
    · right
      rcases hcond with ⟨hne, hfc⟩
      have h40 : Camera.startTrackingThreshold
          ≤ Camera.averageMatches (Camera.pushFrame buf0 c) := by
        simpa using hne
      simp [h40, hfc]
    · left
      rfl
  · simp only [Camera.processFrame, if_true, Bool.not_true]
    split_ifs with hcond
    · right
      rcases hcond with ⟨hne, hfc⟩
      have h20 : Camera.averageMatches (Camera.pushFrame buf0 c)
          < Camera.stopTrackingThreshold := by
        rcases Bool.eq_false_or_eq_true
            (decide (Camera.stopTrackingThreshold
              ≤ Camera.averageMatches (Camera.pushFrame buf0 c))) with hd | hd
        · exact absurd hd hne
        · exact lt_of_not_le (of_decide_eq_false hd)
      have hd : decide (Camera.stopTrackingThreshold
          ≤ Camera.averageMatches (Camera.pushFrame buf0 c)) = false :=
        decide_eq_false (not_le.mpr h20)
      simp [hd, h20, hfc]
    · left
      rfl

/-- The averaging buffer never grows beyond `FRAME_BUFFER_SIZE`. -/
lemma pushFrame_length_le (buf : List ℕ) (c : ℕ)
    (h : buf.length ≤ Camera.frameBufferSize) :
    (Camera.pushFrame buf c).length ≤ Camera.frameBufferSize := by
  simp only [Camera.pushFrame, Camera.frameBufferSize] at *
  split_ifs with h1
  · simp only [List.length_tail, List.length_append, List.length_cons,
      List.length_nil] at *
    omega
  · simp only [List.length_append, List.length_cons, List.length_nil] at h1 ⊢
    omega

/-- C6: hysteresis of the tracking decision: the start threshold 40 is
strictly above the stop threshold 20; `isTracking` changes only when the
rounded average of the last at-most-10 match counts is on the wrong side of
the side-appropriate threshold (at least 40 to start when not tracking,
below 20 to stop when tracking) and at least 5 frames were counted since
the last change; the counter resets to 0 on every change; and consequently
a change is never followed by a change on the very next frame, so the flag
cannot toggle on every frame of an alternating good/bad sequence. -/
theorem camera_hysteresis (s : Camera.CamState) (c : ℕ) :
    (Camera.startTrackingThreshold = 40 ∧ Camera.stopTrackingThreshold = 20) ∧
    ((Camera.processFrame s c).isTracking ≠ s.isTracking →
      Camera.minFramesBeforeChange ≤ s.frameCount + 1 ∧
      (Camera.processFrame s c).frameCount = 0 ∧
      (if s.isTracking
        then Camera.averageMatches (Camera.pushFrame s.lastFrames c)
          < Camera.stopTrackingThreshold
        else Camera.startTrackingThreshold
          ≤ Camera.averageMatches (Camera.pushFrame s.lastFrames c))) ∧
    (s.lastFrames.length ≤ Camera.frameBufferSize →
      (Camera.processFrame s c).lastFrames.length ≤ Camera.frameBufferSize) ∧
    (∀ c' : ℕ, (Camera.processFrame s c).isTracking ≠ s.isTracking →
      (Camera.processFrame (Camera.processFrame s c) c').isTracking
        = (Camera.processFrame s c).isTracking) := by
  refine ⟨⟨rfl, rfl⟩, ?_, ?_, ?_⟩
  · intro hchg
    rcases processFrame_cases s c with heq | ⟨heq, hfc, hside⟩
    · rw [heq] at hchg
      simp at hchg
    · rw [heq]
      exact ⟨hfc, rfl, hside⟩
  · intro hlen
    rcases processFrame_cases s c with heq | ⟨heq, hfc, hside⟩ <;>
      rw [heq] <;> exact pushFrame_length_le s.lastFrames c hlen
  · intro c' hchg
    rcases processFrame_cases s c with heq | ⟨heq, hfc, hside⟩
    · rw [heq] at hchg
      simp at hchg
    · rcases processFrame_cases (Camera.processFrame s c) c' with heq2 | ⟨heq2, hfc2, _⟩
      · rw [heq2]
      · rw [heq] at hfc2
        simp [Camera.minFramesBeforeChange] at hfc2

/-- Witness for C6: a concrete state change to tracking after 5 counted
frames with buffer average 50 against start threshold 40. -/
theorem camera_hysteresis_witness :
    (Camera.processFrame ⟨false, [50, 50, 50, 50], 4⟩ 50).isTracking
        ≠ (⟨false, [50, 50, 50, 50], 4⟩ : Camera.CamState).isTracking ∧
    (Camera.minFramesBeforeChange ≤ 4 + 1 ∧
      (Camera.processFrame ⟨false, [50, 50, 50, 50], 4⟩ 50).frameCount = 0 ∧
      (if (⟨false, [50, 50, 50, 50], 4⟩ : Camera.CamState).isTracking
        then Camera.averageMatches (Camera.pushFrame [50, 50, 50, 50] 50)
          < Camera.stopTrackingThreshold
        else Camera.startTrackingThreshold
          ≤ Camera.averageMatches (Camera.pushFrame [50, 50, 50, 50] 50))) := by
  have havg : Camera.averageMatches [50, 50, 50, 50, 50] = 50 := by
    norm_num [Camera.averageMatches, round_eq]
  have hchg : (Camera.processFrame ⟨false, [50, 50, 50, 50], 4⟩ 50).isTracking
      ≠ (⟨false, [50, 50, 50, 50], 4⟩ : Camera.CamState).isTracking := by
    have hstep : Camera.processFrame ⟨false, [50, 50, 50, 50], 4⟩ 50
        = ⟨true, [50, 50, 50, 50, 50], 0⟩ := by
      simp [Camera.processFrame, Camera.pushFrame, Camera.frameBufferSize, havg,
        Camera.startTrackingThreshold, Camera.minFramesBeforeChange]
    rw [hstep]
    simp
  exact ⟨hchg, (camera_hysteresis ⟨false, [50, 50, 50, 50], 4⟩ 50).2.1 hchg⟩

/-- C4: insufficient evidence is an empty result, not an error:
`matchFeatures` returns `[]` whenever the ratio test produces fewer than 8
matches, and `verifyGeometry` with fewer than 8 input matches returns
exactly `{consistencyRatio: 0, inliers: []}` — both are total functions of
their inputs and cannot throw. -/
theorem insufficientMatches_empty :
    (∀ (st : ImageTracker.TrackerState) (fps : List Pt) (w h : ℚ)
        (fds : List (List ℚ)) (rnd : ℕ → List ℕ),
      (ImageTracker.findBestMatchesWithRatioTest st.targetDescriptor fds
        (7 / 10)).length < 8 →
      ImageTracker.matchFeatures st fps w h (some fds) rnd = []) ∧
    (∀ (ml : List FeatureMatch) (fps tps : List Pt) (rnd : ℕ → List ℕ),
      ml.length < 8 →
      ImageTracker.verifyGeometry ml fps tps rnd = ⟨0, []⟩) := by
  constructor
  · intro st fps w h fds rnd hlt
    simp only [ImageTracker.matchFeatures]
    split_ifs <;> rfl
  · intro ml fps tps rnd hlt
    simp only [ImageTracker.verifyGeometry]
    rw [if_pos hlt]

/-- Witness for C4 at concrete degenerate inputs. -/
theorem insufficientMatches_empty_witness :
    ImageTracker.matchFeatures ⟨[⟨0, 0⟩], 1, 1, []⟩ [] 1 1 (some []) (fun _ => []) = [] ∧
    ImageTracker.verifyGeometry [] [] [] (fun _ => []) = ⟨0, []⟩ := by
  constructor
  · refine insufficientMatches_empty.1 ⟨[⟨0, 0⟩], 1, 1, []⟩ [] 1 1 [] (fun _ => []) ?_
    simp [ImageTracker.findBestMatchesWithRatioTest, ImageTracker.candidateList,
      List.insertionSort]
  · exact insufficientMatches_empty.2 [] [] [] (fun _ => []) (by simp)

/-- C10: degenerate models at the public interface: constructing the
tracker with `trackingData` missing, or with its `points` missing, yields
the empty model (no points, zero dimensions, no descriptors), and
`matchFeatures` then returns `[]` on every frame; likewise `matchFeatures`
returns `[]` whenever the frame descriptors are absent or empty or the
stored target descriptors are empty — in all cases without attempting any
matching. -/
theorem degenerateModel_matchFeatures_empty :
    (ImageTracker.initState none = ⟨[], 0, 0, []⟩ ∧
      ∀ td : ImageTracker.TrackingInput, td.points = none →
        ImageTracker.initState (some td) = ⟨[], 0, 0, []⟩) ∧
    (∀ inp : Option ImageTracker.TrackingInput,
      (inp = none ∨ ∃ td, inp = some td ∧ td.points = none) →
      ∀ (fps : List Pt) (w h : ℚ) (fds : Option (List (List ℚ)))
        (rnd : ℕ → List ℕ),
        ImageTracker.matchFeatures (ImageTracker.initState inp) fps w h fds rnd = []) ∧
    (∀ (st : ImageTracker.TrackerState) (fps : List Pt) (w h : ℚ)
        (fds : Option (List (List ℚ))) (rnd : ℕ → List ℕ),
      (fds = none ∨ fds = some [] ∨ st.targetDescriptor = []) →
      ImageTracker.matchFeatures st fps w h fds rnd = []) := by
  have hpointless : ∀ inp : Option ImageTracker.TrackingInput,
      (inp = none ∨ ∃ td, inp = some td ∧ td.points = none) →
      ImageTracker.initState inp = ⟨[], 0, 0, []⟩ := by
    intro inp h
    rcases h with rfl | ⟨td, rfl, hpts⟩
    · rfl
    · simp [ImageTracker.initState, hpts]
  refine ⟨⟨rfl, fun td htd => hpointless (some td) (Or.inr ⟨td, rfl, htd⟩)⟩, ?_, ?_⟩
  · intro inp h fps w hh fds rnd
    rw [hpointless inp h]
    simp [ImageTracker.matchFeatures]
  · intro st fps w hh fds rnd h
    simp only [ImageTracker.matchFeatures]
    split_ifs with h1
    · rfl
    · rcases h with rfl | rfl | hdesc
      · rfl
      · simp
      · simp only [hdesc, List.length_nil, lt_irrefl, and_false, if_false]
        cases fds <;> rfl

/-- Witness for C10 at concrete degenerate inputs. -/
theorem degenerateModel_matchFeatures_empty_witness :
    ImageTracker.matchFeatures
        (ImageTracker.initState (some ⟨none, 9, 9, none⟩)) [⟨1, 1⟩] 9 9
        (some [[1, 2]]) (fun _ => []) = [] ∧
    ImageTracker.matchFeatures ⟨[⟨1, 1⟩], 9, 9, [[1, 2]]⟩ [⟨1, 1⟩] 9 9 none
        (fun _ => []) = [] := by
  constructor
  · exact degenerateModel_matchFeatures_empty.2.1 (some ⟨none, 9, 9, none⟩)
      (Or.inr ⟨⟨none, 9, 9, none⟩, rfl, rfl⟩) [⟨1, 1⟩] 9 9 (some [[1, 2]]) (fun _ => [])
  · exact degenerateModel_matchFeatures_empty.2.2 ⟨[⟨1, 1⟩], 9, 9, [[1, 2]]⟩
      [⟨1, 1⟩] 9 9 none (fun _ => []) (Or.inl rfl)

/-- C5 counterexample: the `ImageTracker` constructor performs no
width/height validation — constructing with a nonempty point list (a
single point, so the only faulting path, the ≥ 31-point fingerprint grid,
is not reached) and `width = height = 0` succeeds normally, with no
`EmptyImage` failure, silently storing the zero geometry. -/
theorem trackerInit_zeroSize_succeeds :
    ImageTracker.init (some ⟨some [⟨⟨1, 2⟩⟩], 0, 0, none⟩)
      = Except.ok ⟨[⟨1, 2⟩], 0, 0, []⟩ := rfl

/-- C5 amended: the constructor validates nothing and never produces an
`EmptyImage` error kind: whenever `points` is present and the
spatial-fingerprint grid does not fault (in particular whenever there are
at most 30 points), construction succeeds and the supplied width and
height — including 0 — are stored unvalidated; the constructor's only
failure is the `TypeError` thrown by the fingerprint grid when strictly
more than 30 points are supplied and some point's grid row index is
invalid. -/
theorem trackerInit_unvalidated_geometry :
    (∀ (td : ImageTracker.TrackingInput) (pts : List ImageTracker.RawPoint),
      td.points = some pts →
      ¬(30 < pts.length ∧
        (pts.any fun p => ImageTracker.gridRowInvalid td.height p.pt.y) = true) →
      ImageTracker.init (some td)
        = Except.ok ⟨pts.map ImageTracker.RawPoint.pt, td.width, td.height,
            ImageTracker.featureDescriptors td.features⟩) ∧
    (∀ inp : Option ImageTracker.TrackingInput,
      ImageTracker.init inp ≠ Except.error ImageTracker.TrackerInitError.emptyImage) ∧
    (∀ (td : ImageTracker.TrackingInput) (pts : List ImageTracker.RawPoint),
      td.points = some pts → 30 < pts.length →
      (pts.any fun p => ImageTracker.gridRowInvalid td.height p.pt.y) = true →
      ImageTracker.init (some td)
        = Except.error ImageTracker.TrackerInitError.typeError) := by
  refine ⟨?_, ?_, ?_⟩
  · intro td pts hpts hneg
    simp only [ImageTracker.init, hpts]
    rw [if_neg hneg]
  · intro inp
    rcases inp with _ | td
    · simp [ImageTracker.init]
    · rcases htd : td.points with _ | pts
      · simp [ImageTracker.init, htd]
      · simp only [ImageTracker.init, htd]
        split_ifs
        · simp
        · simp
  · intro td pts hpts h30 hany
    simp only [ImageTracker.init, hpts]
    rw [if_pos ⟨h30, hany⟩]

/-- Witness for C5's amended statement: a concrete zero-size single-point
construction that succeeds, and a concrete 31-point construction with a
negative grid row that throws the `TypeError`. -/
theorem trackerInit_unvalidated_geometry_witness :
    ImageTracker.init (some ⟨some [⟨⟨3, 4⟩⟩], 0, 0, none⟩)
      = Except.ok ⟨[⟨3, 4⟩], 0, 0, []⟩ ∧
    ImageTracker.init (some ⟨some (List.replicate 31 ⟨⟨1, -1⟩⟩), 7, 10, none⟩)
      = Except.error ImageTracker.TrackerInitError.typeError := by
  constructor
  · exact trackerInit_unvalidated_geometry.1 ⟨some [⟨⟨3, 4⟩⟩], 0, 0, none⟩
      [⟨⟨3, 4⟩⟩] rfl (by intro h; exact absurd h.1 (by norm_num))
  · refine trackerInit_unvalidated_geometry.2.2
      ⟨some (List.replicate 31 ⟨⟨1, -1⟩⟩), 7, 10, none⟩
      (List.replicate 31 ⟨⟨1, -1⟩⟩) rfl (by simp) ?_
    rw [List.any_eq_true]
    refine ⟨⟨⟨1, -1⟩⟩, List.mem_replicate.mpr ⟨by norm_num, rfl⟩, ?_⟩
    have hfloor : (⌊((-1 : ℚ) / (10 / 6))⌋ : ℤ) = -1 := by norm_num
    simp only [ImageTracker.gridRowInvalid]
    rw [if_neg (by norm_num : ¬(10 : ℚ) = 0)]
    rw [hfloor]
    norm_num

/-- C9: matcher output ordering and bound: for every input, the match list
returned by `findBestMatchesWithRatioTest` is sorted by ascending
descriptor distance and contains at most 100 entries. -/
theorem matcher_sorted_capped (tds fds : List (List ℚ)) (ratioThreshold : ℝ) :
    List.Sorted ImageTracker.matchLe
      (ImageTracker.findBestMatchesWithRatioTest tds fds ratioThreshold) ∧
    (ImageTracker.findBestMatchesWithRatioTest tds fds ratioThreshold).length ≤ 100 := by
  constructor
  · have hs := List.sorted_insertionSort ImageTracker.matchLe
      (ImageTracker.candidateList tds ratioThreshold fds 0)
    exact List.Pairwise.sublist (List.take_sublist 100 _) hs
  · rw [ImageTracker.findBestMatchesWithRatioTest, List.length_take]
    exact min_le_left _ _

/-- The median-of-sorted-scales estimate described by the specification:
the element at index `⌊n/2⌋` of the ascending-sorted list. -/
def specMedian (l : List ℝ) : ℝ :=
  (l.insertionSort (· ≤ ·)).getD (l.length / 2) 0

/-- Collecting scales from two index-aligned mapped lists is filtering the
underlying pair list by positive denominator and mapping the quotient. -/
lemma scalesList_map_eq {α : Type} (f g : α → ℝ) (l : List α) :
    ImageTracker.scalesList (l.map f) (l.map g)
      = (l.filter fun x => decide (0 < g x)).map fun x => f x / g x := by
  induction l with
  | nil => rfl
  | cons a t ih =>
    by_cases h : 0 < g a <;>
      simp [ImageTracker.scalesList, List.filter_cons, h, ← ih]

/-- C2: geometric-verifier scale estimation, one iteration: the collected
scales are exactly the quotients over sample pairs with strictly positive
reference distance (degenerate pairs are skipped); when any scale survives,
the iteration filters the matches against the median scale — the element at
index `⌊n/2⌋` of the ascending-sorted scale list; and when every sample
pair is degenerate the iteration returns `{inliers: [], ratio: 0}`. -/
theorem checkInliers_scale_estimation (samples allM : List FeatureMatch)
    (fps tps : List Pt) :
    (ImageTracker.scalesList (ImageTracker.sampleFrameDists samples fps)
        (ImageTracker.sampleTargetDists samples tps)
      = ((ImageTracker.listPairs samples).filter fun pr =>
          decide (0 < ImageTracker.targetPairDist tps pr)).map fun pr =>
            ImageTracker.framePairDist fps pr / ImageTracker.targetPairDist tps pr) ∧
    (ImageTracker.scalesList (ImageTracker.sampleFrameDists samples fps)
        (ImageTracker.sampleTargetDists samples tps) ≠ [] →
      ImageTracker.checkInliers samples allM fps tps
        = ⟨allM.filter fun m =>
            decide (ImageTracker.matchConsistent
              (specMedian (ImageTracker.scalesList
                (ImageTracker.sampleFrameDists samples fps)
                (ImageTracker.sampleTargetDists samples tps)))
              samples fps tps m),
          if 0 < allM.length
          then ((allM.filter fun m =>
              decide (ImageTracker.matchConsistent
                (specMedian (ImageTracker.scalesList
                  (ImageTracker.sampleFrameDists samples fps)
                  (ImageTracker.sampleTargetDists samples tps)))
                samples fps tps m)).length : ℝ) / (allM.length : ℝ)
          else 0⟩) ∧
    ((∀ pr ∈ ImageTracker.listPairs samples,
        ImageTracker.targetPairDist tps pr = 0) →
      ImageTracker.checkInliers samples allM fps tps = ⟨[], 0⟩) := by
  have heq : ImageTracker.scalesList (ImageTracker.sampleFrameDists samples fps)
      (ImageTracker.sampleTargetDists samples tps)
      = ((ImageTracker.listPairs samples).filter fun pr =>
          decide (0 < ImageTracker.targetPairDist tps pr)).map fun pr =>
            ImageTracker.framePairDist fps pr / ImageTracker.targetPairDist tps pr :=
    scalesList_map_eq _ _ _
  refine ⟨heq, ?_, ?_⟩
  · intro hne
    simp only [ImageTracker.checkInliers, if_neg hne]
    rfl
  · intro hdeg
    have hfilter : ((ImageTracker.listPairs samples).filter fun pr =>
        decide (0 < ImageTracker.targetPairDist tps pr)) = [] := by
      rw [List.filter_eq_nil_iff]
      intro pr hpr
      rw [hdeg pr hpr]
      simp
    have hscales : ImageTracker.scalesList
        (ImageTracker.sampleFrameDists samples fps)
        (ImageTracker.sampleTargetDists samples tps) = [] := by
      rw [heq, hfilter]
      rfl
    simp only [ImageTracker.checkInliers, if_pos hscales]

/-- Distance from a point to itself is zero. -/
lemma getDistance_self (p : Pt) : ImageTracker.getDistance p p = 0 := by
  simp [ImageTracker.getDistance]

/-- Witness for C2: at four samples whose reference points coincide, every
pair is degenerate and the iteration returns `{inliers: [], ratio: 0}`. -/
theorem checkInliers_scale_estimation_witness :
    ImageTracker.checkInliers [⟨0, 0, 0⟩, ⟨1, 0, 0⟩, ⟨2, 0, 0⟩, ⟨3, 0, 0⟩]
      [] [] [⟨0, 0⟩] = ⟨[], 0⟩ := by
  refine (checkInliers_scale_estimation
    [⟨0, 0, 0⟩, ⟨1, 0, 0⟩, ⟨2, 0, 0⟩, ⟨3, 0, 0⟩] [] [] [⟨0, 0⟩]).2.2 ?_
  have hlp : ImageTracker.listPairs
      ([⟨0, 0, 0⟩, ⟨1, 0, 0⟩, ⟨2, 0, 0⟩, ⟨3, 0, 0⟩] : List FeatureMatch)
      = [(⟨0, 0, 0⟩, ⟨1, 0, 0⟩), (⟨0, 0, 0⟩, ⟨2, 0, 0⟩), (⟨0, 0, 0⟩, ⟨3, 0, 0⟩),
         (⟨1, 0, 0⟩, ⟨2, 0, 0⟩), (⟨1, 0, 0⟩, ⟨3, 0, 0⟩), (⟨2, 0, 0⟩, ⟨3, 0, 0⟩)] := rfl
  rw [hlp]
  intro pr hpr
  fin_cases hpr <;>
    simp [ImageTracker.targetPairDist, ImageTracker.ptAtZ, getDistance_self]

/-- The generic best-so-far fold of `verifyGeometry` (`tracker.ts` lines
316-328), abstracted over the per-iteration result `F`. -/
def foldBest {γ : Type} (F : ℕ → γ × ℝ) (l : List ℕ) (init : γ × ℝ) : γ × ℝ :=
  l.foldl (fun acc i => if acc.2 < (F i).2 then F i else acc) init

/-- The best-so-far fold returns its initial accumulator or one of the
iteration results, and its score dominates every iteration's score as well
as the initial score. -/
lemma foldBest_spec {γ : Type} (F : ℕ → γ × ℝ) (l : List ℕ) :
    ∀ init : γ × ℝ,
      (foldBest F l init = init ∨ ∃ i ∈ l, foldBest F l init = F i) ∧
      (∀ i ∈ l, (F i).2 ≤ (foldBest F l init).2) ∧
      init.2 ≤ (foldBest F l init).2 := by
  induction l with
  | nil =>
    intro init
    exact ⟨Or.inl rfl, by simp, le_refl _⟩
  | cons a t ih =>
    intro init
    have hstep : foldBest F (a :: t) init
        = foldBest F t (if init.2 < (F a).2 then F a else init) := rfl
    obtain ⟨h1, h2, h3⟩ := ih (if init.2 < (F a).2 then F a else init)
    rw [hstep]
    refine ⟨?_, ?_, ?_⟩
    · rcases h1 with h1 | ⟨i, hi, hres⟩
      · rw [h1]
        split_ifs with hlt
        · exact Or.inr ⟨a, List.mem_cons_self a t, rfl⟩
        · exact Or.inl rfl
      · exact Or.inr ⟨i, List.mem_cons_of_mem a hi, hres⟩
    · intro i hi
      rcases List.mem_cons.mp hi with rfl | hit
      · refine le_trans ?_ h3
        split_ifs with hlt
        · exact le_refl _
        · exact not_lt.mp hlt
      · exact h2 i hit
    · refine le_trans ?_ h3
      split_ifs with hlt
      · exact le_of_lt hlt
      · exact le_refl _

/-- The result of RANSAC iteration `i` of `verifyGeometry`. -/
def iterResult (ml : List FeatureMatch) (fps tps : List Pt)
    (rnd : ℕ → List ℕ) (i : ℕ) : ImageTracker.CheckResult :=
  ImageTracker.checkInliers (ImageTracker.iterSamples ml rnd i) ml fps tps

/-- Every `checkInliers` result satisfies `ratio = inliers / allMatches`
with the inlier count bounded by the match count. -/
lemma checkInliers_ratio_eq (samples ml : List FeatureMatch) (fps tps : List Pt)
    (h : 0 < ml.length) :
    (ImageTracker.checkInliers samples ml fps tps).ratio
        = ((ImageTracker.checkInliers samples ml fps tps).inliers.length : ℝ)
          / (ml.length : ℝ) ∧
    (ImageTracker.checkInliers samples ml fps tps).inliers.length ≤ ml.length := by
  simp only [ImageTracker.checkInliers]
  split_ifs with hs
  · simp
  · exact ⟨by simp [h], List.length_filter_le _ _⟩

/-- C3: for every list of at least 8 matches and every oracle of random
sample choices (5 iterations of 4 distinct in-range indices),
`verifyGeometry` returns the inlier set and ratio of an iteration whose
ratio dominates all 5 iterations; every iteration's ratio equals
`inliers.length / matches.length`; and the returned `consistencyRatio`
equals `inliers.length / matches.length` and lies in `[0, 1]` (in
particular it is a well-defined real number, never `NaN` or `Infinity`). -/
theorem verifyGeometry_best_iteration (ml : List FeatureMatch) (fps tps : List Pt)
    (rnd : ℕ → List ℕ) (h8 : 8 ≤ ml.length)
    (hrnd : ∀ i < 5, (rnd i).length = 4 ∧ (rnd i).Nodup ∧
      ∀ x ∈ rnd i, x < ml.length) :
    (∃ i < 5,
      (ImageTracker.verifyGeometry ml fps tps rnd).inliers
          = (iterResult ml fps tps rnd i).inliers ∧
      (ImageTracker.verifyGeometry ml fps tps rnd).consistencyRatio
          = (iterResult ml fps tps rnd i).ratio ∧
      ∀ j < 5, (iterResult ml fps tps rnd j).ratio
          ≤ (iterResult ml fps tps rnd i).ratio) ∧
    (∀ i < 5, (iterResult ml fps tps rnd i).ratio
        = ((iterResult ml fps tps rnd i).inliers.length : ℝ) / (ml.length : ℝ)) ∧
    ((ImageTracker.verifyGeometry ml fps tps rnd).consistencyRatio
        = ((ImageTracker.verifyGeometry ml fps tps rnd).inliers.length : ℝ)
          / (ml.length : ℝ)) ∧
    0 ≤ (ImageTracker.verifyGeometry ml fps tps rnd).consistencyRatio ∧
    (ImageTracker.verifyGeometry ml fps tps rnd).consistencyRatio ≤ 1 := by
  have hlen0 : 0 < ml.length := by omega
  have hlenR : (0 : ℝ) < (ml.length : ℝ) := by exact_mod_cast hlen0
  have hratio : ∀ i, (iterResult ml fps tps rnd i).ratio
      = ((iterResult ml fps tps rnd i).inliers.length : ℝ) / (ml.length : ℝ) :=
    fun i => (checkInliers_ratio_eq _ _ _ _ hlen0).1
  have hcnt : ∀ i, (iterResult ml fps tps rnd i).inliers.length ≤ ml.length :=
    fun i => (checkInliers_ratio_eq _ _ _ _ hlen0).2
  have hnonneg : ∀ i, 0 ≤ (iterResult ml fps tps rnd i).ratio := by
    intro i
    rw [hratio i]
    positivity
  have hveq : ImageTracker.verifyGeometry ml fps tps rnd
      = ⟨(foldBest (fun i => ((iterResult ml fps tps rnd i).inliers,
            (iterResult ml fps tps rnd i).ratio)) (List.range 5) ([], 0)).2,
          (foldBest (fun i => ((iterResult ml fps tps rnd i).inliers,
            (iterResult ml fps tps rnd i).ratio)) (List.range 5) ([], 0)).1⟩ := by
    simp only [ImageTracker.verifyGeometry, if_neg (by omega : ¬ ml.length < 8)]
    rfl
  obtain ⟨hcase, hub, -⟩ := foldBest_spec
    (fun i => ((iterResult ml fps tps rnd i).inliers,
      (iterResult ml fps tps rnd i).ratio)) (List.range 5) ([], 0)
  have hmain : ∃ i < 5,
      foldBest (fun i => ((iterResult ml fps tps rnd i).inliers,
        (iterResult ml fps tps rnd i).ratio)) (List.range 5) ([], 0)
        = ((iterResult ml fps tps rnd i).inliers, (iterResult ml fps tps rnd i).ratio) ∧
      ∀ j < 5, (iterResult ml fps tps rnd j).ratio
          ≤ (iterResult ml fps tps rnd i).ratio := by
    rcases hcase with hinit | ⟨i, hi, hres⟩
    · have h00 : (iterResult ml fps tps rnd 0).ratio ≤ 0 := by
        have := hub 0 (by simp)
        rw [hinit] at this
        exact this
      have h0 : (iterResult ml fps tps rnd 0).ratio = 0 :=
        le_antisymm h00 (hnonneg 0)
      have hinl : (iterResult ml fps tps rnd 0).inliers = [] := by
        have hz := hratio 0
        rw [h0] at hz
        field_simp at hz
        have hlz : (iterResult ml fps tps rnd 0).inliers.length = 0 := by
          exact_mod_cast hz.symm
        exact List.length_eq_zero.mp hlz
      refine ⟨0, by norm_num, ?_, ?_⟩
      · rw [hinit, hinl, h0]
      · intro j hj
        have hj0 := hub j (List.mem_range.mpr hj)
        rw [hinit] at hj0
        exact le_trans hj0 (hnonneg 0)
    · refine ⟨i, List.mem_range.mp hi, hres, ?_⟩
      intro j hj
      have := hub j (List.mem_range.mpr hj)
      rw [hres] at this
      exact this
  obtain ⟨i, hi5, hresFi, hmax⟩ := hmain
  refine ⟨⟨i, hi5, ?_, ?_, hmax⟩, fun j _ => hratio j, ?_, ?_, ?_⟩
  · rw [hveq, hresFi]
  · rw [hveq, hresFi]
  · rw [hveq, hresFi]
    exact hratio i
  · rw [hveq, hresFi]
    exact hnonneg i
  · rw [hveq, hresFi]
    have hcast : ((iterResult ml fps tps rnd i).inliers.length : ℝ)
        ≤ (ml.length : ℝ) := by exact_mod_cast hcnt i
    calc ((iterResult ml fps tps rnd i).inliers,
        (iterResult ml fps tps rnd i).ratio).2
        = ((iterResult ml fps tps rnd i).inliers.length : ℝ) / (ml.length : ℝ) :=
          hratio i
      _ ≤ 1 := (div_le_one hlenR).mpr hcast

/-- Witness for C3 at a concrete list of 8 matches and the constant sample
oracle choosing indices 0..3. -/
theorem verifyGeometry_best_iteration_witness :
    0 ≤ (ImageTracker.verifyGeometry
        [⟨0, 0, 0⟩, ⟨1, 1, 0⟩, ⟨2, 2, 0⟩, ⟨3, 3, 0⟩,
          ⟨4, 4, 0⟩, ⟨5, 5, 0⟩, ⟨6, 6, 0⟩, ⟨7, 7, 0⟩] [] []
        (fun _ => [0, 1, 2, 3])).consistencyRatio ∧
    (ImageTracker.verifyGeometry
        [⟨0, 0, 0⟩, ⟨1, 1, 0⟩, ⟨2, 2, 0⟩, ⟨3, 3, 0⟩,
          ⟨4, 4, 0⟩, ⟨5, 5, 0⟩, ⟨6, 6, 0⟩, ⟨7, 7, 0⟩] [] []
        (fun _ => [0, 1, 2, 3])).consistencyRatio ≤ 1 := by
  have h8 : 8 ≤ ([⟨0, 0, 0⟩, ⟨1, 1, 0⟩, ⟨2, 2, 0⟩, ⟨3, 3, 0⟩,
      ⟨4, 4, 0⟩, ⟨5, 5, 0⟩, ⟨6, 6, 0⟩, ⟨7, 7, 0⟩] : List FeatureMatch).length := by
    simp
  have hrnd : ∀ i < 5, ((fun _ : ℕ => [0, 1, 2, 3]) i).length = 4 ∧
      ((fun _ : ℕ => [0, 1, 2, 3]) i).Nodup ∧
      ∀ x ∈ (fun _ : ℕ => [0, 1, 2, 3]) i,
        x < ([⟨0, 0, 0⟩, ⟨1, 1, 0⟩, ⟨2, 2, 0⟩, ⟨3, 3, 0⟩,
          ⟨4, 4, 0⟩, ⟨5, 5, 0⟩, ⟨6, 6, 0⟩, ⟨7, 7, 0⟩] : List FeatureMatch).length := by
    intro i hi
    refine ⟨rfl, (by decide : ([0, 1, 2, 3] : List ℕ).Nodup), ?_⟩
    intro x hx
    fin_cases hx <;> simp
  have h := verifyGeometry_best_iteration
    [⟨0, 0, 0⟩, ⟨1, 1, 0⟩, ⟨2, 2, 0⟩, ⟨3, 3, 0⟩,
      ⟨4, 4, 0⟩, ⟨5, 5, 0⟩, ⟨6, 6, 0⟩, ⟨7, 7, 0⟩] [] []
    (fun _ => [0, 1, 2, 3]) h8 hrnd
  exact ⟨h.2.2.2.1, h.2.2.2.2⟩

/-- The list of L2 distances from a frame descriptor to each reference
descriptor, in reference order. -/
def distancesTo (tds : List (List ℚ)) (fd : List ℚ) : List ℝ :=
  tds.map (ImageTracker.computeDistance fd)

/-- First element of a distance list, `⊤` (the matcher's `Infinity`) when
there is none. -/
def headDist : List ℝ → WithTop ℝ
  | [] => ⊤
  | a :: _ => (a : WithTop ℝ)

/-- Second element of a distance list, `⊤` when there is none. -/
def secondDist : List ℝ → WithTop ℝ
  | _ :: b :: _ => (b : WithTop ℝ)
  | _ => ⊤

/-- The minimum ("bestDist") of a distance list, following the
specification's words: the head of the ascending-sorted list. -/
def specBestDist (l : List ℝ) : WithTop ℝ :=
  headDist (l.insertionSort (· ≤ ·))

/-- The second-minimum ("secondDist") of a distance list: the second
element of the ascending-sorted list. -/
def specSecondDist (l : List ℝ) : WithTop ℝ :=
  secondDist (l.insertionSort (· ≤ ·))

/-- Appending one element sorts as an ordered insertion into the sorted
list (sorting is a function of the multiset on a linear order). -/
lemma insertionSort_append_singleton (l : List ℝ) (d : ℝ) :
    (l ++ [d]).insertionSort (· ≤ ·)
      = List.orderedInsert (· ≤ ·) d (l.insertionSort (· ≤ ·)) := by
  have hperm : ((l ++ [d]).insertionSort (· ≤ ·)).Perm
      (List.orderedInsert (· ≤ ·) d (l.insertionSort (· ≤ ·))) :=
    (List.perm_insertionSort _ _).trans
      ((List.perm_append_singleton _ _).trans
        (((List.perm_insertionSort (· ≤ ·) l).symm.cons d).trans
          (List.perm_orderedInsert _ _ _).symm))
  exact @List.eq_of_perm_of_sorted ℝ (· ≤ ·) inferInstance _ _ hperm
    (List.sorted_insertionSort _ _)
    (List.Sorted.orderedInsert _ _ (List.sorted_insertionSort _ _))

/-- How the minimum evolves when one distance is appended: exactly the
first branch of the scan of `findBestMatchesWithRatioTest`. -/
lemma specBestDist_append (l : List ℝ) (d : ℝ) :
    specBestDist (l ++ [d])
      = if (d : WithTop ℝ) < specBestDist l then (d : WithTop ℝ)
        else specBestDist l := by
  simp only [specBestDist]
  rw [insertionSort_append_singleton]
  cases hs : l.insertionSort (· ≤ ·) with
  | nil =>
    simp [List.orderedInsert, headDist, WithTop.coe_lt_top]
  | cons x xs =>
    by_cases hdx : d ≤ x
    · simp only [List.orderedInsert, if_pos hdx, headDist]
      split_ifs with h1
      · rfl
      · simp only [WithTop.coe_lt_coe, not_lt] at h1
        exact_mod_cast le_antisymm hdx h1
    · simp only [List.orderedInsert, if_neg hdx, headDist]
      split_ifs with h1
      · simp only [WithTop.coe_lt_coe] at h1
        exact absurd h1 (not_lt.mpr (le_of_lt (lt_of_not_le hdx)))
      · rfl

/-- How the second-minimum evolves when one distance is appended: exactly
the second branch of the scan of `findBestMatchesWithRatioTest`. -/
lemma specSecondDist_append (l : List ℝ) (d : ℝ) :
    specSecondDist (l ++ [d])
      = if (d : WithTop ℝ) < specBestDist l then specBestDist l
        else if (d : WithTop ℝ) < specSecondDist l then (d : WithTop ℝ)
        else specSecondDist l := by
  simp only [specSecondDist, specBestDist]
  rw [insertionSort_append_singleton]
  cases hs : l.insertionSort (· ≤ ·) with
  | nil =>
    simp [List.orderedInsert, headDist, secondDist, WithTop.coe_lt_top]
  | cons x xs =>
    cases xs with
    | nil =>
      by_cases hdx : d ≤ x
      · simp only [List.orderedInsert, if_pos hdx, headDist, secondDist]
        split_ifs with h1 h2
        · rfl
        · simp only [WithTop.coe_lt_coe, not_lt] at h1
          exact_mod_cast le_antisymm h1 hdx
        · exact absurd (WithTop.coe_lt_top d) (by assumption)
      · simp only [List.orderedInsert, if_neg hdx, headDist, secondDist]
        split_ifs with h1 h2
        · simp only [WithTop.coe_lt_coe] at h1
          exact absurd h1 (not_lt.mpr (le_of_lt (lt_of_not_le hdx)))
        · rfl
        · exact absurd (WithTop.coe_lt_top d) (by assumption)
    | cons y ys =>
      have hxy : x ≤ y := by
        have hsorted := List.sorted_insertionSort (· ≤ ·) l
        rw [hs] at hsorted
        exact (List.sorted_cons.mp hsorted).1 y (by simp)
      by_cases hdx : d ≤ x
      · simp only [List.orderedInsert, if_pos hdx, headDist, secondDist]
        split_ifs with h1 h2
        · rfl
        · simp only [WithTop.coe_lt_coe, not_lt] at h1
          exact_mod_cast le_antisymm h1 hdx
        · simp only [WithTop.coe_lt_coe, not_lt] at h1 h2
          exact_mod_cast le_antisymm hxy (le_trans h2 hdx)
      · simp only [List.orderedInsert, if_neg hdx]
        by_cases hdy : d ≤ y
        · simp only [if_pos hdy, headDist, secondDist]
          split_ifs with h1 h2
          · simp only [WithTop.coe_lt_coe] at h1
            exact absurd h1 (not_lt.mpr (le_of_lt (lt_of_not_le hdx)))
          · rfl
          · simp only [WithTop.coe_lt_coe, not_lt] at h2
            exact_mod_cast le_antisymm hdy h2
        · simp only [if_neg hdy, headDist, secondDist]
          split_ifs with h1 h2
          · simp only [WithTop.coe_lt_coe] at h1
            exact absurd h1 (not_lt.mpr (le_of_lt (lt_of_not_le hdx)))
          · simp only [WithTop.coe_lt_coe] at h2
            exact absurd h2 (not_lt.mpr (le_of_lt (lt_of_not_le hdy)))
          · rfl

/-- Invariant of the best/second-best scan of
`findBestMatchesWithRatioTest`: started from a state that correctly
summarizes the distance prefix `pre` (minimum, second-minimum, and an index
realizing the minimum), the scan of the remaining reference descriptors
yields the minimum, second-minimum and a realizing index of the full
distance list. -/
lemma scanDescriptors_spec (fd : List ℚ) (tds : List (List ℚ)) :
    ∀ (pre : List ℝ) (st : ImageTracker.ScanState),
      st.bestDist = specBestDist pre →
      st.secondBest = specSecondDist pre →
      (pre ≠ [] → ∃ k : ℕ, st.bestIdx = (k : ℤ) ∧ k < pre.length ∧
        ((pre.getD k 0 : ℝ) : WithTop ℝ) = st.bestDist) →
      (ImageTracker.scanDescriptors fd tds pre.length st).bestDist
          = specBestDist (pre ++ distancesTo tds fd) ∧
      (ImageTracker.scanDescriptors fd tds pre.length st).secondBest
          = specSecondDist (pre ++ distancesTo tds fd) ∧
      ((pre ++ distancesTo tds fd) ≠ [] → ∃ k : ℕ,
        (ImageTracker.scanDescriptors fd tds pre.length st).bestIdx = (k : ℤ) ∧
        k < (pre ++ distancesTo tds fd).length ∧
        (((pre ++ distancesTo tds fd).getD k 0 : ℝ) : WithTop ℝ)
          = (ImageTracker.scanDescriptors fd tds pre.length st).bestDist) := by
  induction tds with
  | nil =>
    intro pre st h1 h2 h3
    simp only [distancesTo, List.map_nil, List.append_nil,
      ImageTracker.scanDescriptors]
    exact ⟨h1, h2, h3⟩
  | cons td rest ih =>
    intro pre st h1 h2 h3
    set d := ImageTracker.computeDistance fd td with hdd
    set stStep := if (d : WithTop ℝ) < st.bestDist
        then (⟨(d : ℝ), st.bestDist, (pre.length : ℤ)⟩ : ImageTracker.ScanState)
        else if (d : WithTop ℝ) < st.secondBest
          then (⟨st.bestDist, (d : ℝ), st.bestIdx⟩ : ImageTracker.ScanState)
          else st with hstDef
    have hstep : ImageTracker.scanDescriptors fd (td :: rest) pre.length st
        = ImageTracker.scanDescriptors fd rest (pre.length + 1) stStep := rfl
    have happ : pre ++ distancesTo (td :: rest) fd
        = (pre ++ [d]) ++ distancesTo rest fd := by
      simp [distancesTo]
    have hlen : (pre ++ [d]).length = pre.length + 1 := by simp
    have hkeepBest : ¬ (d : WithTop ℝ) < st.bestDist → stStep.bestDist = st.bestDist := by
      intro hc1
      rw [hstDef, if_neg hc1]
      split_ifs <;> rfl
    have hkeepIdx : ¬ (d : WithTop ℝ) < st.bestDist → stStep.bestIdx = st.bestIdx := by
      intro hc1
      rw [hstDef, if_neg hc1]
      split_ifs <;> rfl
    have hb : stStep.bestDist = specBestDist (pre ++ [d]) := by
      rw [specBestDist_append, ← h1]
      by_cases hc1 : (d : WithTop ℝ) < st.bestDist
      · rw [if_pos hc1, hstDef, if_pos hc1]
      · rw [if_neg hc1]
        exact hkeepBest hc1
    have hs2 : stStep.secondBest = specSecondDist (pre ++ [d]) := by
      rw [specSecondDist_append, ← h1, ← h2]
      by_cases hc1 : (d : WithTop ℝ) < st.bestDist
      · rw [if_pos hc1, hstDef, if_pos hc1]
      · rw [if_neg hc1, hstDef, if_neg hc1]
        by_cases hc2 : (d : WithTop ℝ) < st.secondBest
        · rw [if_pos hc2, if_pos hc2]
        · rw [if_neg hc2, if_neg hc2]
    have harg : (pre ++ [d]) ≠ [] → ∃ k : ℕ, stStep.bestIdx = (k : ℤ) ∧
        k < (pre ++ [d]).length ∧
        (((pre ++ [d]).getD k 0 : ℝ) : WithTop ℝ) = stStep.bestDist := by
      intro hne
      by_cases hc1 : (d : WithTop ℝ) < st.bestDist
      · refine ⟨pre.length, ?_, ?_, ?_⟩
        · rw [hstDef, if_pos hc1]
        · rw [hlen]
          omega
        · rw [List.getD_append_right pre [d] 0 pre.length (le_refl _)]
          simp only [Nat.sub_self, List.getD]
          rw [hstDef, if_pos hc1]
          rfl
      · have hpre : pre ≠ [] := by
          intro hemp
          apply hc1
          rw [h1, hemp]
          exact WithTop.coe_lt_top d
        obtain ⟨k, hk1, hk2, hk3⟩ := h3 hpre
        refine ⟨k, ?_, ?_, ?_⟩
        · rw [hkeepIdx hc1, hk1]
        · rw [hlen]
          omega
        · rw [List.getD_append pre [d] 0 k hk2, hkeepBest hc1]
          exact hk3
    have hfinal := ih (pre ++ [d]) stStep hb hs2 harg
    rw [hlen] at hfinal
    rw [hstep, happ]
    exact hfinal

/-- Running the scan from `(Infinity, Infinity, -1)` computes the minimum,
the second-minimum, and an index realizing the minimum of the distances. -/
lemma scanDescriptors_run (fd : List ℚ) (tds : List (List ℚ)) :
    (ImageTracker.scanDescriptors fd tds 0 ⟨⊤, ⊤, -1⟩).bestDist
        = specBestDist (distancesTo tds fd) ∧
    (ImageTracker.scanDescriptors fd tds 0 ⟨⊤, ⊤, -1⟩).secondBest
        = specSecondDist (distancesTo tds fd) ∧
    (distancesTo tds fd ≠ [] → ∃ k : ℕ,
      (ImageTracker.scanDescriptors fd tds 0 ⟨⊤, ⊤, -1⟩).bestIdx = (k : ℤ) ∧
      k < (distancesTo tds fd).length ∧
      (((distancesTo tds fd).getD k 0 : ℝ) : WithTop ℝ)
        = (ImageTracker.scanDescriptors fd tds 0 ⟨⊤, ⊤, -1⟩).bestDist) := by
  have h := scanDescriptors_spec fd tds [] ⟨⊤, ⊤, -1⟩ rfl rfl
    (fun hemp => absurd rfl hemp)
  simpa using h

/-- Reading the distance list at an in-range index gives the distance to
the corresponding reference descriptor. -/
lemma distancesTo_getD (tds : List (List ℚ)) (fd : List ℚ) (k : ℕ)
    (hk : k < tds.length) :
    (distancesTo tds fd).getD k 0
      = ImageTracker.computeDistance fd (tds.getD k []) := by
  simp only [distancesTo, List.getD_eq_getElem?_getD, List.getElem?_map,
    List.getElem?_eq_getElem hk]
  rfl

/-- The per-query candidate is emitted exactly when the minimum distance
beats the threshold times the second-minimum distance. -/
lemma ratioCandidate_isSome_iff (tds : List (List ℚ)) (ratioThreshold : ℝ)
    (q : ℕ) (fd : List ℚ) :
    (∃ m, ImageTracker.ratioCandidate tds ratioThreshold q fd = some m) ↔
      specBestDist (distancesTo tds fd)
        < (ratioThreshold : WithTop ℝ) * specSecondDist (distancesTo tds fd) := by
  obtain ⟨hb, hs, -⟩ := scanDescriptors_run fd tds
  simp only [ImageTracker.ratioCandidate]
  rw [hb, hs]
  split_ifs with h
  · exact iff_of_true ⟨_, rfl⟩ h
  · refine iff_of_false ?_ h
    rintro ⟨m, hm⟩
    exact hm

/-- An emitted candidate records the query index, the minimum distance,
and an in-range reference index realizing that minimum distance. -/
lemma ratioCandidate_some_props (tds : List (List ℚ)) (ratioThreshold : ℝ)
    (q : ℕ) (fd : List ℚ) (m : FeatureMatch)
    (h : ImageTracker.ratioCandidate tds ratioThreshold q fd = some m) :
    m.queryIdx = q ∧ m.distance = specBestDist (distancesTo tds fd) ∧
    (tds ≠ [] → ∃ k : ℕ, m.trainIdx = (k : ℤ) ∧ k < tds.length ∧
      ((ImageTracker.computeDistance fd (tds.getD k []) : ℝ) : WithTop ℝ)
        = m.distance) := by
  obtain ⟨hb, hs, hargF⟩ := scanDescriptors_run fd tds
  simp only [ImageTracker.ratioCandidate] at h
  split_ifs at h with hcond
  · obtain rfl := Option.some.inj h
    refine ⟨rfl, hb, ?_⟩
    intro htds
    have hdl : distancesTo tds fd ≠ [] := by
      intro hemp
      apply htds
      cases tds with
      | nil => rfl
      | cons a t => exact absurd hemp (by simp [distancesTo])
    obtain ⟨k, hk1, hk2, hk3⟩ := hargF hdl
    have hk2' : k < tds.length := by
      simpa [distancesTo] using hk2
    refine ⟨k, hk1, hk2', ?_⟩
    rw [distancesTo_getD tds fd k hk2'] at hk3
    exact hk3

/-- The candidate loop emits at most one match per frame descriptor. -/
lemma candidateList_length_le (tds : List (List ℚ)) (ratioThreshold : ℝ) :
    ∀ (fds : List (List ℚ)) (q0 : ℕ),
      (ImageTracker.candidateList tds ratioThreshold fds q0).length ≤ fds.length := by
  intro fds
  induction fds with
  | nil =>
    intro q0
    simp [ImageTracker.candidateList]
  | cons fd rest ih =>
    intro q0
    cases hc : ImageTracker.ratioCandidate tds ratioThreshold q0 fd with
    | some m0 =>
      have := ih (q0 + 1)
      simp only [ImageTracker.candidateList, hc, List.length_cons]
      omega
    | none =>
      have := ih (q0 + 1)
      simp only [ImageTracker.candidateList, hc, List.length_cons]
      omega

/-- Membership in the candidate list is emission of the candidate for some
frame descriptor, with the query index recording its position. -/
lemma mem_candidateList_iff (tds : List (List ℚ)) (ratioThreshold : ℝ) :
    ∀ (fds : List (List ℚ)) (q0 : ℕ) (m : FeatureMatch),
      m ∈ ImageTracker.candidateList tds ratioThreshold fds q0 ↔
        ∃ j fdq, fds[j]? = some fdq ∧
          ImageTracker.ratioCandidate tds ratioThreshold (q0 + j) fdq = some m := by
  intro fds
  induction fds with
  | nil =>
    intro q0 m
    simp [ImageTracker.candidateList]
  | cons fd rest ih =>
    intro q0 m
    constructor
    · intro hm
      cases hc : ImageTracker.ratioCandidate tds ratioThreshold q0 fd with
      | some m0 =>
        simp only [ImageTracker.candidateList, hc] at hm
        rcases List.mem_cons.mp hm with rfl | htail
        · exact ⟨0, fd, by simp, by simpa using hc⟩
        · obtain ⟨j, fdq, hj, hcand⟩ := (ih (q0 + 1) m).mp htail
          refine ⟨j + 1, fdq, by simpa using hj, ?_⟩
          rw [show q0 + (j + 1) = q0 + 1 + j by omega]
          exact hcand
      | none =>
        simp only [ImageTracker.candidateList, hc] at hm
        obtain ⟨j, fdq, hj, hcand⟩ := (ih (q0 + 1) m).mp hm
        refine ⟨j + 1, fdq, by simpa using hj, ?_⟩
        rw [show q0 + (j + 1) = q0 + 1 + j by omega]
        exact hcand
    · rintro ⟨j, fdq, hj, hcand⟩
      cases j with
      | zero =>
        rw [List.getElem?_cons_zero] at hj
        obtain rfl := Option.some.inj hj
        rw [Nat.add_zero] at hcand
        cases hc : ImageTracker.ratioCandidate tds ratioThreshold q0 fd with
        | some m0 =>
          simp only [ImageTracker.candidateList, hc]
          rw [hc] at hcand
          exact List.mem_cons.mpr (Or.inl (Option.some.inj hcand).symm)
        | none =>
          rw [hc] at hcand
          exact Option.noConfusion hcand
      | succ j0 =>
        rw [List.getElem?_cons_succ] at hj
        have htail : m ∈ ImageTracker.candidateList tds ratioThreshold rest (q0 + 1) := by
          apply (ih (q0 + 1) m).mpr
          refine ⟨j0, fdq, hj, ?_⟩
          rw [show q0 + 1 + j0 = q0 + (j0 + 1) by omega]
          exact hcand
        cases hc : ImageTracker.ratioCandidate tds ratioThreshold q0 fd with
        | some m0 =>
          simp only [ImageTracker.candidateList, hc]
          exact List.mem_cons.mpr (Or.inr htail)
        | none =>
          simp only [ImageTracker.candidateList, hc]
          exact htail

/-- With at most 100 frame descriptors the sort-and-cap stage of the
matcher drops nothing, so membership in the matcher output is emission of
the per-query candidate. -/
lemma mem_findBest_iff (tds fds : List (List ℚ)) (ratioThreshold : ℝ)
    (hcap : fds.length ≤ 100) (m : FeatureMatch) :
    m ∈ ImageTracker.findBestMatchesWithRatioTest tds fds ratioThreshold ↔
      ∃ j fdq, fds[j]? = some fdq ∧
        ImageTracker.ratioCandidate tds ratioThreshold j fdq = some m := by
  unfold ImageTracker.findBestMatchesWithRatioTest
  have hlen : ((ImageTracker.candidateList tds ratioThreshold fds 0).insertionSort
      ImageTracker.matchLe).length ≤ 100 :=
    le_trans (le_of_eq (List.Perm.length_eq (List.perm_insertionSort _ _)))
      (le_trans (candidateList_length_le tds ratioThreshold fds 0) hcap)
  rw [List.take_of_length_le hlen]
  rw [List.Perm.mem_iff (List.perm_insertionSort _ _)]
  simpa using mem_candidateList_iff tds ratioThreshold fds 0 m

/-- Under at least one reference descriptor, the minimum is the head of the
ascending-sorted distance list, as a real number. -/
lemma specBestDist_coe (l : List ℝ) (h : 1 ≤ l.length) :
    specBestDist l
      = (((l.insertionSort (· ≤ ·)).getD 0 0 : ℝ) : WithTop ℝ) := by
  have hlen : 1 ≤ (l.insertionSort (· ≤ ·)).length := by
    rw [List.length_insertionSort]
    exact h
  unfold specBestDist
  cases hs : l.insertionSort (· ≤ ·) with
  | nil =>
    rw [hs] at hlen
    simp at hlen
  | cons a t =>
    simp [headDist, List.getD]

/-- Under at least two reference descriptors, the second-minimum is the
second element of the ascending-sorted distance list, as a real number. -/
lemma specSecondDist_coe (l : List ℝ) (h : 2 ≤ l.length) :
    specSecondDist l
      = (((l.insertionSort (· ≤ ·)).getD 1 0 : ℝ) : WithTop ℝ) := by
  have hlen : 2 ≤ (l.insertionSort (· ≤ ·)).length := by
    rw [List.length_insertionSort]
    exact h
  unfold specSecondDist
  cases hs : l.insertionSort (· ≤ ·) with
  | nil =>
    rw [hs] at hlen
    simp at hlen
  | cons a t =>
    cases t with
    | nil =>
      rw [hs] at hlen
      simp at hlen
    | cons b t2 =>
      simp [secondDist, List.getD]

/-- C1 counterexample: the claim's "emits a match for `q` iff
`bestDist < 0.7 * secondDist`" is false of the matcher as a whole, because
of the `slice(0, 100)` cap (`tracker.ts` lines 300-303): with 101
identical frame descriptors against two reference descriptors at distances
0 and 1, the ratio test passes for every query index (`0 < 0.7 * 1`), yet
the returned list holds at most 100 matches, so some query index has no
emitted match — by pigeonhole on the 101 distinct query indices. -/
theorem matcher_cap_drops_match :
    ¬ ∀ q < 101,
      ((∃ m ∈ ImageTracker.findBestMatchesWithRatioTest
          ([[0], [1]] : List (List ℚ)) (List.replicate 101 [0]) (7 / 10 : ℝ),
          m.queryIdx = q) ↔
        specBestDist (distancesTo [[0], [1]]
            ((List.replicate 101 ([0] : List ℚ)).getD q []))
          < ((7 / 10 : ℝ) : WithTop ℝ)
            * specSecondDist (distancesTo [[0], [1]]
                ((List.replicate 101 ([0] : List ℚ)).getD q []))) := by
  intro hall
  have hgetD : ∀ q, q < 101 →
      (List.replicate 101 ([0] : List ℚ)).getD q [] = [0] := by
    intro q hq
    rw [List.getD_eq_getElem?_getD, List.getElem?_replicate]
    simp [hq]
  have h00 : ImageTracker.computeDistance [0] [0] = 0 := by
    simp [ImageTracker.computeDistance]
  have h01 : ImageTracker.computeDistance [0] [1] = 1 := by
    norm_num [ImageTracker.computeDistance]
  have hdl : distancesTo [[0], [1]] [0] = [0, 1] := by
    simp [distancesTo, h00, h01]
  have hsort : (([0, 1] : List ℝ).insertionSort (· ≤ ·)) = [0, 1] := by
    norm_num [List.insertionSort, List.orderedInsert]
  have hcond : specBestDist (distancesTo [[0], [1]] [0])
      < ((7 / 10 : ℝ) : WithTop ℝ)
        * specSecondDist (distancesTo [[0], [1]] [0]) := by
    rw [hdl]
    unfold specBestDist specSecondDist
    rw [hsort]
    simp only [headDist, secondDist]
    rw [← WithTop.coe_mul, WithTop.coe_lt_coe]
    norm_num
  have hex : ∀ q, q < 101 → ∃ m ∈ ImageTracker.findBestMatchesWithRatioTest
      ([[0], [1]] : List (List ℚ)) (List.replicate 101 [0]) (7 / 10 : ℝ),
      m.queryIdx = q := by
    intro q hq
    refine (hall q hq).mpr ?_
    rw [hgetD q hq]
    exact hcond
  have hsub : List.range 101 ⊆ (ImageTracker.findBestMatchesWithRatioTest
      ([[0], [1]] : List (List ℚ)) (List.replicate 101 [0])
      (7 / 10 : ℝ)).map FeatureMatch.queryIdx := by
    intro x hx
    rw [List.mem_range] at hx
    obtain ⟨m, hm, hqi⟩ := hex x hx
    exact List.mem_map.mpr ⟨m, hm, hqi⟩
  have hlen : ((ImageTracker.findBestMatchesWithRatioTest
      ([[0], [1]] : List (List ℚ)) (List.replicate 101 [0])
      (7 / 10 : ℝ)).map FeatureMatch.queryIdx).length ≤ 100 := by
    rw [List.length_map, ImageTracker.findBestMatchesWithRatioTest,
      List.length_take]
    exact min_le_left _ _
  have h101 := List.Subperm.length_le ((List.nodup_range 101).subperm hsub)
  rw [List.length_range] at h101
  omega

/-- C1 (amended): matcher ratio test behind the output cap: with at least
two reference descriptors and at most 100 frame descriptors (so that the
`slice(0, 100)` cap of `tracker.ts` lines 300-303 cannot drop an accepted
match), the matcher emits a match for frame descriptor `q` if and only if
the minimum L2 distance `bestDist` of that descriptor to the reference
descriptors satisfies `bestDist < 0.7 * secondDist`, where `secondDist` is
the second-minimum distance (both are the first two entries of the
ascending-sorted distance list, spelled out by the middle conjunct); and
every emitted match for `q` records `bestDist` as its distance and an
in-range reference index realizing that minimum as its `trainIdx`. -/
theorem matcher_ratio_test (tds fds : List (List ℚ)) (q : ℕ)
    (h2 : 2 ≤ tds.length) (hq : q < fds.length) (hcap : fds.length ≤ 100) :
    ((∃ m ∈ ImageTracker.findBestMatchesWithRatioTest tds fds (7 / 10 : ℝ),
        m.queryIdx = q) ↔
      specBestDist (distancesTo tds (fds.getD q []))
        < ((7 / 10 : ℝ) : WithTop ℝ)
          * specSecondDist (distancesTo tds (fds.getD q []))) ∧
    (specBestDist (distancesTo tds (fds.getD q []))
        = ((((distancesTo tds (fds.getD q [])).insertionSort
            (· ≤ ·)).getD 0 0 : ℝ) : WithTop ℝ) ∧
      specSecondDist (distancesTo tds (fds.getD q []))
        = ((((distancesTo tds (fds.getD q [])).insertionSort
            (· ≤ ·)).getD 1 0 : ℝ) : WithTop ℝ)) ∧
    (∀ m ∈ ImageTracker.findBestMatchesWithRatioTest tds fds (7 / 10 : ℝ),
      m.queryIdx = q →
      m.distance = specBestDist (distancesTo tds (fds.getD q [])) ∧
      ∃ k : ℕ, m.trainIdx = (k : ℤ) ∧ k < tds.length ∧
        ((ImageTracker.computeDistance (fds.getD q [])
            (tds.getD k []) : ℝ) : WithTop ℝ) = m.distance) := by
  have hdl2 : 2 ≤ (distancesTo tds (fds.getD q [])).length := by
    simpa [distancesTo] using h2
  have hgetD : fds.getD q [] = fds[q] := by
    rw [List.getD_eq_getElem?_getD, List.getElem?_eq_getElem hq]
    rfl
  have hfdq : fds[q]? = some (fds.getD q []) := by
    rw [List.getElem?_eq_getElem hq, hgetD]
  refine ⟨?_, ⟨specBestDist_coe _ (by omega), specSecondDist_coe _ hdl2⟩, ?_⟩
  · constructor
    · rintro ⟨m, hm, hqi⟩
      obtain ⟨j, fdq, hj, hcand⟩ :=
        (mem_findBest_iff tds fds _ hcap m).mp hm
      have hqi2 := (ratioCandidate_some_props tds _ j fdq m hcand).1
      have hjq : j = q := by rw [← hqi2, hqi]
      subst hjq
      have hfd : fdq = fds.getD j [] := by
        rw [hfdq] at hj
        exact (Option.some.inj hj).symm
      subst hfd
      exact (ratioCandidate_isSome_iff tds _ j (fds.getD j [])).mp ⟨m, hcand⟩
    · intro hcond
      obtain ⟨m, hm⟩ :=
        (ratioCandidate_isSome_iff tds (7 / 10 : ℝ) q (fds.getD q [])).mpr hcond
      refine ⟨m, (mem_findBest_iff tds fds _ hcap m).mpr
        ⟨q, fds.getD q [], hfdq, hm⟩, ?_⟩
      exact (ratioCandidate_some_props tds _ q (fds.getD q []) m hm).1
  · intro m hm hqi
    obtain ⟨j, fdq, hj, hcand⟩ := (mem_findBest_iff tds fds _ hcap m).mp hm
    obtain ⟨hqi2, hdist, hidx⟩ := ratioCandidate_some_props tds _ j fdq m hcand
    have hjq : j = q := by rw [← hqi2, hqi]
    subst hjq
    have hfd : fdq = fds.getD j [] := by
      rw [hfdq] at hj
      exact (Option.some.inj hj).symm
    subst hfd
    refine ⟨hdist, ?_⟩
    have htds : tds ≠ [] := by
      intro hemp
      rw [hemp] at h2
      simp at h2
    exact hidx htds

/-- Witness for C1 at two concrete reference descriptors and one frame
descriptor. -/
theorem matcher_ratio_test_witness :
    (∃ m ∈ ImageTracker.findBestMatchesWithRatioTest [[0], [1]] [[0]] (7 / 10 : ℝ),
        m.queryIdx = 0) ↔
      specBestDist (distancesTo [[0], [1]] (([[0]] : List (List ℚ)).getD 0 []))
        < ((7 / 10 : ℝ) : WithTop ℝ)
          * specSecondDist (distancesTo [[0], [1]] (([[0]] : List (List ℚ)).getD 0 [])) :=
  (matcher_ratio_test [[0], [1]] [[0]] 0 (by simp) (by simp) (by simp)).1
